import Mathlib

/-!
Verification of the record-normalization and report-generation logic of the
Pharma Flash daily drug-highlight application.

The TypeScript source is shallowly embedded: JavaScript runtime values are
modelled by the inductive type `JSVal`, and each source function is translated
into a total Lean function over `JSVal` (or over a small record type when the
source operates on already-typed data).  External collaborators (Firestore key
ordering, `Date.getTime()` identifiers, `String.prototype.toLowerCase`) are
modelled explicitly where the source relies on them.
-/

namespace PharmaFlash

/-- Model of a JavaScript runtime value as stored in / read from Firestore.
Arrays and objects are finite; object property order is the insertion order,
as in JS.  `num` carries an integer (no NaN; no field of the embedded code
depends on fractional values). -/
inductive JSVal where
  | null
  | undefined
  | bool (b : Bool)
  | num (n : Int)
  | str (s : String)
  | arr (elems : List JSVal)
  | obj (props : List (String × JSVal))

/-- Result of the JS `typeof` operator on a modelled value.  Note that
`typeof null`, `typeof` of an array and `typeof` of an object are all
the string "object", exactly as in JavaScript. -/
def jsTypeof : JSVal → String
  | .null => "object"
  | .undefined => "undefined"
  | .bool _ => "boolean"
  | .num _ => "number"
  | .str _ => "string"
  | .arr _ => "object"
  | .obj _ => "object"

/-- JS truthiness: `null`, `undefined`, `false`, `0` and the empty string are
falsy, everything else (including every array and object) is truthy. -/
def truthy : JSVal → Bool
  | .null => false
  | .undefined => false
  | .bool b => b
  | .num n => !(n == 0)
  | .str s => !(s == "")
  | .arr _ => true
  | .obj _ => true

/-- Safe property access `x?.[k]` / `x?.k`: the first property named `k` of an
object, `undefined` for a missing property and for every non-object value. -/
def getProp : JSVal → String → JSVal
  | .obj props, key => (props.lookup key).getD .undefined
  | _, _ => .undefined

/-- The JS `in` operator restricted to own properties of modelled objects. -/
def hasProp : JSVal → String → Bool
  | .obj props, key => (props.lookup key).isSome
  | _, _ => false

/-- Model of `Array.isArray`. -/
def isArray : JSVal → Bool
  | .arr _ => true
  | _ => false

/-- Underlying string of a value already known (by a `typeof` guard) to be a
string; the default is irrelevant because every use site is guarded. -/
def asString : JSVal → String
  | .str s => s
  | _ => ""

/-- Underlying element list of a value already known (by an `Array.isArray`
guard) to be an array. -/
def asArr : JSVal → List JSVal
  | .arr elems => elems
  | _ => []

/-- Embeds `getDisplayValue` (src/unnamed/part_005 lines 813-821): return a
string field unchanged; return the `value` property of a truthy object whose
`value` property is string-typed; return the empty string otherwise. -/
def getDisplayValue (fieldData : JSVal) : String :=
  if jsTypeof fieldData = "string" then asString fieldData
  else if truthy fieldData ∧ jsTypeof fieldData = "object" ∧ hasProp fieldData "value"
      ∧ jsTypeof (getProp fieldData "value") = "string" then
    asString (getProp fieldData "value")
  else ""

/-- Embeds the `offLabelUse` branch of `normalizeDrugHighlight`
(src/unnamed/part_005 lines 837-848): a string is wrapped with an empty
reference list; a truthy object carrying a `value` key keeps its display value
and its `references` when they form an array; anything else becomes the empty
value with no references. -/
def normalizeOffLabelUse (offLabelData : JSVal) : JSVal :=
  if jsTypeof offLabelData = "string" then
    .obj [("value", offLabelData), ("references", .arr [])]
  else if truthy offLabelData ∧ jsTypeof offLabelData = "object" ∧ hasProp offLabelData "value" then
    .obj [("value", .str (getDisplayValue offLabelData)),
          ("references", if isArray (getProp offLabelData "references")
                         then getProp offLabelData "references" else .arr [])]
  else
    .obj [("value", .str ""), ("references", .arr [])]

/-- The non-`offLabelUse` keys of `emptyDrugData` (src/unnamed/part_005 lines
790-804), in source declaration order. -/
def scalarFieldKeys : List String :=
  ["drugName", "drugClass", "mechanism", "uses", "sideEffects", "routeOfAdministration",
   "dose", "dosageForm", "halfLife", "clinicalUses", "contraindication", "funFact"]

/-- Embeds `normalizeDrugHighlight` (src/unnamed/part_005 lines 824-852).
The source builds `{ id: data?.id || timestamp, ...emptyDrugData }` and then
assigns `getDisplayValue(data?.[key])` to every key of `emptyDrugData` except
`offLabelUse`, which gets its own branch; the `forEach` over the key list is
unrolled here, producing the same final property list in the same order.
`freshId` stands for the `new Date().getTime().toString()` token (in the
running program it is a non-empty decimal string). -/
def normalizeDrugHighlight (freshId : String) (data : JSVal) : JSVal :=
  .obj [
    ("id", if truthy (getProp data "id") then getProp data "id" else .str freshId),
    ("drugName", .str (getDisplayValue (getProp data "drugName"))),
    ("drugClass", .str (getDisplayValue (getProp data "drugClass"))),
    ("mechanism", .str (getDisplayValue (getProp data "mechanism"))),
    ("uses", .str (getDisplayValue (getProp data "uses"))),
    ("sideEffects", .str (getDisplayValue (getProp data "sideEffects"))),
    ("routeOfAdministration", .str (getDisplayValue (getProp data "routeOfAdministration"))),
    ("dose", .str (getDisplayValue (getProp data "dose"))),
    ("dosageForm", .str (getDisplayValue (getProp data "dosageForm"))),
    ("halfLife", .str (getDisplayValue (getProp data "halfLife"))),
    ("clinicalUses", .str (getDisplayValue (getProp data "clinicalUses"))),
    ("contraindication", .str (getDisplayValue (getProp data "contraindication"))),
    ("offLabelUse", normalizeOffLabelUse (getProp data "offLabelUse")),
    ("funFact", .str (getDisplayValue (getProp data "funFact")))]

/-- Embeds `getEmptyDailyHighlight` (src/unnamed/part_005 lines 806-809). -/
def getEmptyDailyHighlight (date : String) : JSVal :=
  .obj [("date", .str date), ("drugs", .arr [])]

/-- Embeds `normalizeDailyHighlight` (src/unnamed/part_005 lines 855-863):
falsy data or a missing drugs array yields the empty record for the supplied
date; otherwise the result is `{ date: data.date || date, drugs: mapped }`. -/
def normalizeDailyHighlight (freshId : String) (date : String) (data : JSVal) : JSVal :=
  if ¬ truthy data ∨ ¬ isArray (getProp data "drugs") then
    getEmptyDailyHighlight date
  else
    .obj [("date", if truthy (getProp data "date") then getProp data "date" else .str date),
          ("drugs", .arr ((asArr (getProp data "drugs")).map (normalizeDrugHighlight freshId)))]

/-- Model of `String.prototype.toLowerCase` as used by the duplicate check
(character-wise lowering; on the ASCII drug names the app compares, this
matches the JS behaviour). -/
def toLowerCase (s : String) : String := ⟨s.data.map Char.toLower⟩

/-- One normalized drug as seen by the duplicate scan: `handleDuplicateCheck`
only reads the `id` and `drugName` fields of the `DrugHighlight` entries of
`allDrugData : Map<string, DrugHighlight[]>`, both string-typed
(src/src/lib/types.ts, src/unnamed/part_000). -/
structure DrugRec where
  id : String
  drugName : String
deriving Repr, DecidableEq

/-- All `(date, drug)` pairs of the history map, in iteration order: the outer
`for (const [date, drugs] of allDrugData.entries())` loop composed with the
inner `for (const drug of drugs)` loop. -/
def allEntries (allDrugData : List (String × List DrugRec)) : List (String × DrugRec) :=
  allDrugData.flatMap fun entry => entry.2.map fun drug => (entry.1, drug)

/-- Embeds the search loop of `handleDuplicateCheck` (src/unnamed/part_005
lines 1133-1153): an empty query name returns immediately; otherwise the first
`(date, drug)` whose lower-cased name equals the lower-cased query and whose
`(date, id)` pair differs from the exclusion key `(dateString, currentId)` is
reported as the duplicate. -/
def handleDuplicateCheck (allDrugData : List (String × List DrugRec)) (drugName : String)
    (dateString : String) (currentId : String) : Option (String × DrugRec) :=
  if drugName = "" then none
  else
    (allEntries allDrugData).find? fun p =>
      toLowerCase p.2.drugName == toLowerCase drugName
        && (p.1 != dateString || p.2.id != currentId)

/-- Byte-wise lexicographic order on character lists, used to model how the
Firestore collaborator compares document names. -/
def charListLe : List Char → List Char → Bool
  | [], _ => true
  | _ :: _, [] => false
  | a :: as, b :: bs =>
    if a.toNat < b.toNat then true
    else if b.toNat < a.toNat then false
    else charListLe as bs

/-- Lexicographic order on document keys (zero-padded `YYYY-MM-DD` strings). -/
def keyLe (a b : String) : Bool := charListLe a.data b.data

/-- Embeds the Firestore range query issued by `handleDownload`
(src/src/components/pharma-flash/DownloadDialog.tsx lines 70-75 and
src/unnamed/part_004 lines 70-75): keep the documents whose name is
lexicographically between `startDate` and `endDate` inclusive, ordered by
name, per the documented semantics of
`where(__name__, >=, start) / where(__name__, <=, end) / orderBy(__name__)`. -/
def rangeQuery {α : Type} (store : List (String × α)) (startDate endDate : String) :
    List (String × α) :=
  List.insertionSort (fun a b => keyLe a.1 b.1 = true)
    (store.filter fun docEntry => keyLe startDate docEntry.1 && keyLe docEntry.1 endDate)

/-- Outcome of one run of `handleDownload`: invalid range selected, no data in
range (a toast, no document), or a saved PDF with the given filename built
from the given highlight list. -/
inductive DownloadOutcome where
  | invalidRange
  | noData
  | saved (filename : String) (highlights : List (String × JSVal))

/-- Embeds the control flow of `handleDownload`
(src/src/components/pharma-flash/DownloadDialog.tsx lines 53-96): a missing
range end aborts with a toast; an empty filtered result reports "No Data
Found" and produces no document; otherwise a PDF named from the two range ends
is assembled from the filtered documents and saved. -/
def handleDownload (rangeFrom rangeTo : Option String) (store : List (String × JSVal)) :
    DownloadOutcome :=
  match rangeFrom, rangeTo with
  | some startDate, some endDate =>
    let highlights := rangeQuery store startDate endDate
    if highlights.isEmpty then DownloadOutcome.noData
    else
      DownloadOutcome.saved
        ("pharmacology-highlights-" ++ startDate ++ "-to-" ++ endDate ++ ".pdf") highlights
  | _, _ => DownloadOutcome.invalidRange

/-- Embeds the per-field text selection of `addHighlight`
(src/src/components/pharma-flash/DownloadDialog.tsx line 137):
`const text = highlight[item.key] || ""`. -/
def renderFieldText (highlight : JSVal) (key : String) : JSVal :=
  if truthy (getProp highlight key) then getProp highlight key else JSVal.str ""

/-- Embeds the `fieldToLabel` list of `addHighlight`
(src/src/components/pharma-flash/DownloadDialog.tsx lines 122-129). -/
def fieldToLabel : List (String × String) :=
  [("drugName", "Drug of the Day"), ("drugClass", "Drug Class"),
   ("mechanism", "Mechanism of Action"), ("uses", "Common Uses"),
   ("sideEffects", "Side Effects"), ("funFact", "Fun Fact")]

/-- Embeds the `tableData` rows built for one highlight by `handleDownload`
(src/unnamed/part_004 lines 101-115): each labelled row carries the raw field
value of the fetched document, with no conversion applied. -/
def part4TableBody (highlight : JSVal) : List (String × JSVal) :=
  [("Drug of the Day", getProp highlight "drugName"),
   ("Drug Class", getProp highlight "drugClass"),
   ("Mechanism of Action", getProp highlight "mechanism"),
   ("Common Uses", getProp highlight "uses"),
   ("Side Effects", getProp highlight "sideEffects"),
   ("Route of Administration", getProp highlight "routeOfAdministration"),
   ("Dose", getProp highlight "dose"),
   ("Dosage Form", getProp highlight "dosageForm"),
   ("Half-life", getProp highlight "halfLife"),
   ("Clinical uses", getProp highlight "clinicalUses"),
   ("Contraindication", getProp highlight "contraindication"),
   ("Off Label Use", getProp highlight "offLabelUse"),
   ("Fun Fact", getProp highlight "funFact")]

/-- Embeds the `didParseCell` hook of `handleDownload` (src/unnamed/part_004
lines 148-156): a string-typed cell is split into lines at newline characters;
every other cell is left to the table library untouched (`none`). -/
def cellLines : JSVal → Option (List String)
  | .str s => some (s.splitOn "\n")
  | _ => none

/-- PIN constant `ADMIN_PIN` (src/src/components/pharma-flash/PinDialog.tsx
line 19). -/
def ADMIN_PIN : String := "743351"

/-- The UI state touched by the PIN dialog: the entered PIN, the inline error
message, the edit-mode flag of the client (set through `onSuccess`, wired to
`setIsEditing(true)` in PharmaFlashClient), and whether the dialog is open. -/
structure PinGateState where
  pin : String
  error : String
  isEditing : Bool
  isOpen : Bool
deriving Repr, DecidableEq

/-- Embeds `handleConfirm` (src/src/components/pharma-flash/PinDialog.tsx
lines 33-47): on an exact match the error is cleared, `onSuccess` unlocks edit
mode, the dialog closes and the entered PIN is cleared; otherwise only the
error message is set. -/
def handleConfirm (s : PinGateState) : PinGateState :=
  if s.pin = ADMIN_PIN then
    { s with error := "", isEditing := true, isOpen := false, pin := "" }
  else
    { s with error := "Invalid PIN. Please try again." }

/-- Embeds `handleOpenChange` (src/src/components/pharma-flash/PinDialog.tsx
lines 49-55): closing the dialog clears the entered PIN and the error. -/
def handlePinOpenChange (s : PinGateState) (isOpen : Bool) : PinGateState :=
  if isOpen = false then { s with pin := "", error := "", isOpen := isOpen }
  else { s with isOpen := isOpen }

/-- The off-label field value of the spec's rendering scenario: value
"Anxiety" with two reference URLs. -/
def anxietyOffLabel : JSVal :=
  JSVal.obj [("value", JSVal.str "Anxiety"),
    ("references", JSVal.arr [JSVal.str "https://a.example", JSVal.str "https://b.example"])]

/-- A stored highlight document carrying the scenario's off-label field. -/
def anxietyHighlight : JSVal :=
  JSVal.obj [("drugName", JSVal.str "Sertraline"), ("offLabelUse", anxietyOffLabel)]

/-- The store of the spec's range-filtering scenario: four documents keyed by
date, one of them before and one after the queried range. -/
def demoStore : List (String × String) :=
  [("2024-12-31", "rec-2024-12-31"), ("2025-01-01", "rec-2025-01-01"),
   ("2025-01-02", "rec-2025-01-02"), ("2025-01-04", "rec-2025-01-04")]

/-! ### Supporting lemmas -/

theorem getDisplayValue_str (s : String) : getDisplayValue (JSVal.str s) = s := rfl

theorem toLowerCase_eq_empty_iff (s : String) : toLowerCase s = "" ↔ s = "" := by
  constructor
  · intro h
    have hd : s.data.map Char.toLower = [] := congrArg String.data h
    have hnil : s.data = [] := List.map_eq_nil_iff.mp hd
    apply String.ext
    simpa using hnil
  · intro h
    subst h
    rfl

theorem charListLe_total (a b : List Char) : charListLe a b || charListLe b a := by
  induction a generalizing b with
  | nil => cases b <;> simp [charListLe]
  | cons x xs ih =>
    cases b with
    | nil => simp [charListLe]
    | cons y ys =>
      simp only [charListLe]
      rcases Nat.lt_trichotomy x.toNat y.toNat with h | h | h
      · simp [h]
      · simp [h, Nat.lt_irrefl, ih]
      · simp [h, Nat.lt_asymm h]

theorem charListLe_trans (a b c : List Char) (hab : charListLe a b) (hbc : charListLe b c) :
    charListLe a c := by
  induction a generalizing b c with
  | nil => simp [charListLe]
  | cons x xs ih =>
    cases b with
    | nil => simp [charListLe] at hab
    | cons y ys =>
      cases c with
      | nil => simp [charListLe] at hbc
      | cons z zs =>
        simp only [charListLe] at hab hbc ⊢
        rcases Nat.lt_trichotomy x.toNat y.toNat with h1 | h1 | h1
        · rcases Nat.lt_trichotomy y.toNat z.toNat with h2 | h2 | h2
          · simp [Nat.lt_trans h1 h2]
          · simp [h2 ▸ h1]
          · simp [h2, Nat.lt_asymm h2] at hbc
        · rcases Nat.lt_trichotomy y.toNat z.toNat with h2 | h2 | h2
          · simp [h1 ▸ h2]
          · have hxz : x.toNat = z.toNat := h1.trans h2
            simp only [h1, Nat.lt_irrefl, if_neg, ite_self, if_false] at hab
            simp only [h2, Nat.lt_irrefl, if_neg, ite_self, if_false] at hbc
            simp [hxz, Nat.lt_irrefl, ih ys zs hab hbc]
          · simp [h2, Nat.lt_asymm h2] at hbc
        · simp [h1, Nat.lt_asymm h1] at hab

theorem keyLe_total (a b : String) : keyLe a b || keyLe b a := charListLe_total a.data b.data

theorem keyLe_trans (a b c : String) (hab : keyLe a b) (hbc : keyLe b c) : keyLe a c :=
  charListLe_trans a.data b.data c.data hab hbc

theorem getProp_cons_eq (k : String) (v : JSVal) (rest : List (String × JSVal)) :
    getProp (JSVal.obj ((k, v) :: rest)) k = v := by
  simp [getProp, List.lookup]

/-- Output shape of the off-label normalization: always an object whose first
property is a string `value` and whose second property is an array
`references`. -/
theorem normalizeOffLabelUse_shape (x : JSVal) :
    ∃ v refs, normalizeOffLabelUse x =
      JSVal.obj [("value", JSVal.str v), ("references", JSVal.arr refs)] := by
  unfold normalizeOffLabelUse
  split
  · next hstr =>
    cases x <;> simp [jsTypeof] at hstr ⊢
  · split
    · next hobj =>
      refine ⟨getDisplayValue x, asArr (getProp x "references"), ?_⟩
      rcases hrefs : getProp x "references" with _ | _ | b | n | s | elems | props <;>
        simp [isArray, asArr, hrefs]
    · exact ⟨"", [], rfl⟩

/-- Normalizing an already-normalized off-label object is the identity. -/
theorem normalizeOffLabelUse_fixpoint (v : String) (refs : List JSVal) :
    normalizeOffLabelUse (JSVal.obj [("value", JSVal.str v), ("references", JSVal.arr refs)]) =
      JSVal.obj [("value", JSVal.str v), ("references", JSVal.arr refs)] := rfl

theorem normalizeOffLabelUse_idem (x : JSVal) :
    normalizeOffLabelUse (normalizeOffLabelUse x) = normalizeOffLabelUse x := by
  obtain ⟨v, refs, h⟩ := normalizeOffLabelUse_shape x
  rw [h, normalizeOffLabelUse_fixpoint]

/-! ### Claim theorems -/

/-- C1: getDisplayValue returns a string input unchanged; returns the value
property of a non-null object whose value property is string-typed; and
returns the empty string for every other input (null, undefined, boolean,
number, array, or object without a string-typed value property). -/
theorem getDisplayValue_spec :
    (∀ s, getDisplayValue (JSVal.str s) = s) ∧
    (∀ props v, props.lookup "value" = some (JSVal.str v) →
        getDisplayValue (JSVal.obj props) = v) ∧
    (getDisplayValue JSVal.null = "" ∧ getDisplayValue JSVal.undefined = "" ∧
     (∀ b, getDisplayValue (JSVal.bool b) = "") ∧
     (∀ n, getDisplayValue (JSVal.num n) = "") ∧
     (∀ elems, getDisplayValue (JSVal.arr elems) = "") ∧
     (∀ props, (∀ v, props.lookup "value" ≠ some (JSVal.str v)) →
        getDisplayValue (JSVal.obj props) = "")) := by
  refine ⟨fun s => rfl, fun props v h => ?_, rfl, rfl,
    fun b => by simp [getDisplayValue, jsTypeof],
    fun n => by simp [getDisplayValue, jsTypeof],
    fun elems => rfl, fun props h => ?_⟩
  · simp [getDisplayValue, jsTypeof, truthy, hasProp, getProp, asString, h]
  · rcases hl : props.lookup "value" with _ | w
    · simp [getDisplayValue, jsTypeof, hasProp, hl]
    · cases w with
      | str s => exact absurd hl (h s)
      | null => simp [getDisplayValue, jsTypeof, hasProp, getProp, hl]
      | undefined => simp [getDisplayValue, jsTypeof, hasProp, getProp, hl]
      | bool b => simp [getDisplayValue, jsTypeof, hasProp, getProp, hl]
      | num n => simp [getDisplayValue, jsTypeof, hasProp, getProp, hl]
      | arr elems => simp [getDisplayValue, jsTypeof, hasProp, getProp, hl]
      | obj ps => simp [getDisplayValue, jsTypeof, hasProp, getProp, hl]

/-- Witness for C1: concrete evaluations through the theorem. -/
theorem getDisplayValue_spec_witness :
    getDisplayValue (JSVal.obj [("value", JSVal.str "Nausea")]) = "Nausea" ∧
    getDisplayValue (JSVal.obj [("value", JSVal.num 3)]) = "" :=
  ⟨getDisplayValue_spec.2.1 [("value", JSVal.str "Nausea")] "Nausea" (by simp [List.lookup]),
   getDisplayValue_spec.2.2.2.2.2.2.2 [("value", JSVal.num 3)]
     (by intro v; simp [List.lookup])⟩

/-- C2 counterexample: the date stored inside the raw record wins over the
supplied key when it is truthy, so the normalized record's date field does
not equal the supplied date argument. -/
theorem normalizeDailyHighlight_date_counterexample :
    getProp (normalizeDailyHighlight "1700000000000" "2025-01-01"
        (JSVal.obj [("date", JSVal.str "2099-12-31"), ("drugs", JSVal.arr [])])) "date"
      ≠ JSVal.str "2025-01-01" := by
  show JSVal.str "2099-12-31" ≠ JSVal.str "2025-01-01"
  simp

/-- C2 (amended): the date field of normalizeDailyHighlight(date, raw) equals
raw.date whenever raw is truthy, raw.drugs is an array, and raw.date is
truthy; in every other case it equals the supplied date argument.  No
overwrite with the supplied key takes place after the merge. -/
theorem normalizeDailyHighlight_date (freshId date : String) (data : JSVal) :
    getProp (normalizeDailyHighlight freshId date data) "date" =
      if truthy data ∧ isArray (getProp data "drugs") ∧ truthy (getProp data "date")
      then getProp data "date" else JSVal.str date := by
  unfold normalizeDailyHighlight
  by_cases t1 : truthy data = true
  · by_cases t2 : isArray (getProp data "drugs") = true
    · rw [if_neg (by simp [t1, t2])]
      rw [getProp_cons_eq]
      by_cases t3 : truthy (getProp data "date") = true
      · rw [if_pos t3, if_pos ⟨t1, t2, t3⟩]
      · rw [if_neg t3, if_neg (by simp [t3])]
    · rw [if_pos (by simp [t2]), if_neg (by simp [t2])]
      exact getProp_cons_eq _ _ _
  · rw [if_pos (by simp [t1]), if_neg (by simp [t1])]
    exact getProp_cons_eq _ _ _

/-- C5: normalizeDrugHighlight is idempotent.  The hypothesis records that the
freshly generated identifier of the first application is a non-empty string,
as `new Date().getTime().toString()` always is; the second application may use
any identifier since it never replaces the one already present. -/
theorem normalizeDrugHighlight_idem (f1 f2 : String) (h1 : f1 ≠ "") (data : JSVal) :
    normalizeDrugHighlight f2 (normalizeDrugHighlight f1 data) =
      normalizeDrugHighlight f1 data := by
  have hid : truthy (if truthy (getProp data "id") then getProp data "id" else JSVal.str f1)
      = true := by
    by_cases hc : truthy (getProp data "id") = true
    · rw [if_pos hc]; exact hc
    · rw [if_neg hc]
      simp [truthy, h1]
  show JSVal.obj [
      ("id", if truthy (if truthy (getProp data "id") then getProp data "id" else JSVal.str f1)
             then (if truthy (getProp data "id") then getProp data "id" else JSVal.str f1)
             else JSVal.str f2),
      ("drugName", JSVal.str (getDisplayValue (getProp data "drugName"))),
      ("drugClass", JSVal.str (getDisplayValue (getProp data "drugClass"))),
      ("mechanism", JSVal.str (getDisplayValue (getProp data "mechanism"))),
      ("uses", JSVal.str (getDisplayValue (getProp data "uses"))),
      ("sideEffects", JSVal.str (getDisplayValue (getProp data "sideEffects"))),
      ("routeOfAdministration",
        JSVal.str (getDisplayValue (getProp data "routeOfAdministration"))),
      ("dose", JSVal.str (getDisplayValue (getProp data "dose"))),
      ("dosageForm", JSVal.str (getDisplayValue (getProp data "dosageForm"))),
      ("halfLife", JSVal.str (getDisplayValue (getProp data "halfLife"))),
      ("clinicalUses", JSVal.str (getDisplayValue (getProp data "clinicalUses"))),
      ("contraindication", JSVal.str (getDisplayValue (getProp data "contraindication"))),
      ("offLabelUse", normalizeOffLabelUse (normalizeOffLabelUse (getProp data "offLabelUse"))),
      ("funFact", JSVal.str (getDisplayValue (getProp data "funFact")))]
    = normalizeDrugHighlight f1 data
  rw [hid, normalizeOffLabelUse_idem]
  rfl

/-- Witness for C5: the theorem applied at a concrete timestamp identifier and
a concrete legacy-shaped input. -/
theorem normalizeDrugHighlight_idem_witness :
    normalizeDrugHighlight "1700000000001"
        (normalizeDrugHighlight "1700000000000"
          (JSVal.obj [("drugName", JSVal.str "Aspirin"), ("offLabelUse", JSVal.str "Fever")]))
      = normalizeDrugHighlight "1700000000000"
          (JSVal.obj [("drugName", JSVal.str "Aspirin"), ("offLabelUse", JSVal.str "Fever")]) :=
  normalizeDrugHighlight_idem "1700000000000" "1700000000001" (by decide)
    (JSVal.obj [("drugName", JSVal.str "Aspirin"), ("offLabelUse", JSVal.str "Fever")])

/-- C8: normalizeDrugHighlight is total (a Lean function defined on every
modelled JS value, so no input makes it throw) and its output carries a
string for every scalar field and a well-formed value/references object for
offLabelUse; in particular every field of the output resolves to a display
string that agrees with getDisplayValue of the raw field. -/
theorem normalizeDrugHighlight_total (freshId : String) (data : JSVal) :
    (∀ key ∈ scalarFieldKeys,
        getProp (normalizeDrugHighlight freshId data) key
          = JSVal.str (getDisplayValue (getProp data key))) ∧
    (∃ v refs, getProp (normalizeDrugHighlight freshId data) "offLabelUse"
        = JSVal.obj [("value", JSVal.str v), ("references", JSVal.arr refs)]) := by
  constructor
  · intro key hkey
    fin_cases hkey <;> rfl
  · have hoff : getProp (normalizeDrugHighlight freshId data) "offLabelUse"
        = normalizeOffLabelUse (getProp data "offLabelUse") := rfl
    rw [hoff]
    exact normalizeOffLabelUse_shape (getProp data "offLabelUse")

/-- Witness for C8: the theorem applied to a pathological input (a bare
number) and the drugName key. -/
theorem normalizeDrugHighlight_total_witness :
    getProp (normalizeDrugHighlight "1700000000000" (JSVal.num 7)) "drugName"
        = JSVal.str (getDisplayValue (getProp (JSVal.num 7) "drugName")) ∧
    (∃ v refs, getProp (normalizeDrugHighlight "1700000000000" (JSVal.num 7)) "offLabelUse"
        = JSVal.obj [("value", JSVal.str v), ("references", JSVal.arr refs)]) :=
  ⟨(normalizeDrugHighlight_total "1700000000000" (JSVal.num 7)).1 "drugName" (by simp [scalarFieldKeys]),
   (normalizeDrugHighlight_total "1700000000000" (JSVal.num 7)).2⟩

/-- C3 counterexample: the Report Generator does not obtain the rendered text
through getDisplayValue; a field stored as a plain string and the same field
stored as a value/references object render differently, because the raw field
value is used directly. -/
theorem renderFieldText_shape_counterexample :
    renderFieldText (JSVal.obj [("sideEffects", JSVal.str "Nausea")]) "sideEffects"
        = JSVal.str "Nausea" ∧
    renderFieldText (JSVal.obj [("sideEffects",
          JSVal.obj [("value", JSVal.str "Nausea"), ("references", JSVal.arr [])])]) "sideEffects"
        = JSVal.obj [("value", JSVal.str "Nausea"), ("references", JSVal.arr [])] ∧
    JSVal.obj [("value", JSVal.str "Nausea"), ("references", JSVal.arr [])]
        ≠ JSVal.str "Nausea" :=
  ⟨rfl, rfl, by simp⟩

/-- C3 (amended): the Report Generator selects each cell text as
highlight[key] || "": a missing field and every falsy value render as the
empty string (never an undefined placeholder, and the selection is a total
function, so it cannot throw), a non-empty plain string renders unchanged,
but an object-shaped value/references field is passed through raw, so the two
historical shapes of one field do not render the same display string. -/
theorem renderFieldText_spec (highlight : JSVal) (key : String) :
    (getProp highlight key = JSVal.undefined → renderFieldText highlight key = JSVal.str "") ∧
    (∀ s, getProp highlight key = JSVal.str s → s ≠ "" →
        renderFieldText highlight key = JSVal.str s) ∧
    (∀ props, getProp highlight key = JSVal.obj props →
        renderFieldText highlight key = JSVal.obj props) := by
  refine ⟨fun h => ?_, fun s h hs => ?_, fun props h => ?_⟩
  · simp [renderFieldText, h, truthy]
  · simp [renderFieldText, h, truthy, hs]
  · simp [renderFieldText, h, truthy]

/-- Witness for C3 (amended): a missing field of a stored document renders as
the empty string and a plain string field renders unchanged. -/
theorem renderFieldText_spec_witness :
    renderFieldText (JSVal.obj [("drugName", JSVal.str "Aspirin")]) "sideEffects"
        = JSVal.str "" ∧
    renderFieldText (JSVal.obj [("sideEffects", JSVal.str "Nausea")]) "sideEffects"
        = JSVal.str "Nausea" :=
  ⟨(renderFieldText_spec (JSVal.obj [("drugName", JSVal.str "Aspirin")]) "sideEffects").1 rfl,
   (renderFieldText_spec (JSVal.obj [("sideEffects", JSVal.str "Nausea")]) "sideEffects").2.1
     "Nausea" rfl (by decide)⟩

/-- C4 counterexample: for the scenario's off-label value, the generated
table row carries the raw object itself; the cell never becomes a composed
text, so no cell text consisting of "Anxiety", a References: line and the two
URLs is produced. -/
theorem part4_offlabel_counterexample :
    (part4TableBody anxietyHighlight).lookup "Off Label Use" = some anxietyOffLabel ∧
    cellLines anxietyOffLabel = none ∧
    anxietyOffLabel ≠ JSVal.str "Anxiety\nReferences:\nhttps://a.example\nhttps://b.example" :=
  ⟨rfl, rfl, by simp [anxietyOffLabel]⟩

/-- C4 (amended): the Off Label Use row of the report table receives the
stored offLabelUse value unchanged (no References: block is composed from the
reference list); the didParseCell hook splits string-typed cells into lines
at newline characters and leaves object-typed cells to the table library. -/
theorem part4TableBody_offLabelUse (highlight : JSVal) :
    (part4TableBody highlight).lookup "Off Label Use" = some (getProp highlight "offLabelUse") ∧
    (∀ s, cellLines (JSVal.str s) = some (s.splitOn "\n")) ∧
    (∀ props, cellLines (JSVal.obj props) = none) :=
  ⟨rfl, fun _ => rfl, fun _ => rfl⟩

/-- C6: report range filtering is inclusive on both ends and sorted ascending
by date string: the scenario range keeps exactly the two in-range records in
date order, and in general a document is in the filtered result exactly when
it is in the store with its key lexicographically between the two bounds, the
result being pairwise sorted by key. -/
theorem rangeQuery_spec :
    rangeQuery demoStore "2025-01-01" "2025-01-03"
        = [("2025-01-01", "rec-2025-01-01"), ("2025-01-02", "rec-2025-01-02")] ∧
    (∀ (α : Type) (store : List (String × α)) (s e : String) (docEntry : String × α),
        docEntry ∈ rangeQuery store s e ↔
          docEntry ∈ store ∧ keyLe s docEntry.1 ∧ keyLe docEntry.1 e) ∧
    (∀ (α : Type) (store : List (String × α)) (s e : String),
        List.Pairwise (fun a b => keyLe a.1 b.1 = true) (rangeQuery store s e)) := by
  refine ⟨by decide, fun α store s e docEntry => ?_, fun α store s e => ?_⟩
  · unfold rangeQuery
    rw [(List.perm_insertionSort _ _).mem_iff]
    simp [List.mem_filter]
  · unfold rangeQuery
    haveI : IsTotal (String × α) (fun a b => keyLe a.1 b.1 = true) :=
      ⟨fun a b => by
        have h := keyLe_total a.1 b.1
        rcases Bool.or_eq_true_iff.mp h with h | h
        · exact Or.inl h
        · exact Or.inr h⟩
    haveI : IsTrans (String × α) (fun a b => keyLe a.1 b.1 = true) :=
      ⟨fun a b c hab hbc => keyLe_trans a.1 b.1 c.1 hab hbc⟩
    exact List.sorted_insertionSort _ _

/-- C7: an empty filtered record set yields the no-data outcome and no saved
document; the embedded control flow is a total function, so no exception is
thrown. -/
theorem handleDownload_noData (store : List (String × JSVal)) (s e : String)
    (h : rangeQuery store s e = []) :
    handleDownload (some s) (some e) store = DownloadOutcome.noData ∧
    (∀ fn hs, handleDownload (some s) (some e) store ≠ DownloadOutcome.saved fn hs) := by
  have hmain : handleDownload (some s) (some e) store = DownloadOutcome.noData := by
    simp [handleDownload, h]
  exact ⟨hmain, fun fn hs => by rw [hmain]; simp⟩

/-- Witness for C7: a store whose only document lies outside the selected
range produces the no-data outcome. -/
theorem handleDownload_noData_witness :
    handleDownload (some "2025-01-01") (some "2025-01-03")
        [("2024-01-01", JSVal.null)] = DownloadOutcome.noData :=
  (handleDownload_noData [("2024-01-01", JSVal.null)] "2025-01-01" "2025-01-03" rfl).1

/-- C9: duplicate detection is case-insensitive (two queries whose lower-cased
forms agree return the same match); every reported match has the queried name
up to case and differs from the exclusion key; and a stored entry whose name
matches is excluded only when both its date and its drug id equal the
exclusion key, otherwise some match is reported. -/
theorem handleDuplicateCheck_spec :
    (∀ all n1 n2 d i, toLowerCase n1 = toLowerCase n2 →
        handleDuplicateCheck all n1 d i = handleDuplicateCheck all n2 d i) ∧
    (∀ all n d i p, handleDuplicateCheck all n d i = some p →
        toLowerCase p.2.drugName = toLowerCase n ∧ ¬(p.1 = d ∧ p.2.id = i)) ∧
    (∀ all n d i date drug, (date, drug) ∈ allEntries all →
        toLowerCase drug.drugName = toLowerCase n → n ≠ "" →
        ¬(date = d ∧ drug.id = i) →
        ∃ p, handleDuplicateCheck all n d i = some p) := by
  refine ⟨fun all n1 n2 d i h => ?_, fun all n d i p hp => ?_,
    fun all n d i date drug hmem hlow hn hkey => ?_⟩
  · unfold handleDuplicateCheck
    by_cases hn1 : n1 = ""
    · have hn2 : n2 = "" := by
        rw [← toLowerCase_eq_empty_iff, ← h, toLowerCase_eq_empty_iff]
        exact hn1
      rw [if_pos hn1, if_pos hn2]
    · have hn2 : ¬ n2 = "" := by
        rw [← toLowerCase_eq_empty_iff, ← h, toLowerCase_eq_empty_iff]
        exact hn1
      rw [if_neg hn1, if_neg hn2]
      simp only [h]
  · unfold handleDuplicateCheck at hp
    split at hp
    · simp at hp
    · have hfound := List.find?_some hp
      simp only [Bool.and_eq_true, beq_iff_eq, Bool.or_eq_true, bne_iff_ne] at hfound
      exact ⟨hfound.1, not_and_or.mpr hfound.2⟩
  · unfold handleDuplicateCheck
    rw [if_neg hn]
    have hex : ∃ x ∈ allEntries all,
        (toLowerCase x.2.drugName == toLowerCase n
          && (x.1 != d || x.2.id != i)) = true := by
      refine ⟨(date, drug), hmem, ?_⟩
      simp only [Bool.and_eq_true, beq_iff_eq, Bool.or_eq_true, bne_iff_ne]
      exact ⟨hlow, not_and_or.mp hkey⟩
    have hsome := List.find?_isSome.mpr hex
    exact Option.isSome_iff_exists.mp hsome

/-- Witness for C9: a one-entry history matched under a different letter
casing, with an exclusion key that differs in both components. -/
theorem handleDuplicateCheck_spec_witness :
    handleDuplicateCheck [("2025-01-01", [⟨"1", "Aspirin"⟩])] "Aspirin" "2025-03-03" "9"
        = handleDuplicateCheck [("2025-01-01", [⟨"1", "Aspirin"⟩])] "aspirin" "2025-03-03" "9" ∧
    (∃ p, handleDuplicateCheck [("2025-01-01", [⟨"1", "Aspirin"⟩])] "aspirin" "2025-03-03" "9"
        = some p) :=
  ⟨handleDuplicateCheck_spec.1 [("2025-01-01", [⟨"1", "Aspirin"⟩])] "Aspirin" "aspirin"
      "2025-03-03" "9" (by decide),
   handleDuplicateCheck_spec.2.2 [("2025-01-01", [⟨"1", "Aspirin"⟩])] "aspirin"
      "2025-03-03" "9" "2025-01-01" ⟨"1", "Aspirin"⟩
      (by simp [allEntries]) (by decide) (by decide) (by decide)⟩

/-- C10: with edit mode locked, confirming grants edit mode exactly when the
entered string equals the admin PIN by exact string comparison; any other
entry leaves the gate closed and shows the error message; and closing the
dialog clears the entered PIN and the error. -/
theorem pinGate_spec (s : PinGateState) (h : s.isEditing = false) :
    ((handleConfirm s).isEditing = true ↔ s.pin = ADMIN_PIN) ∧
    (s.pin ≠ ADMIN_PIN → (handleConfirm s).isEditing = false ∧
        (handleConfirm s).error = "Invalid PIN. Please try again.") ∧
    (∀ t : PinGateState, (handlePinOpenChange t false).pin = ""
        ∧ (handlePinOpenChange t false).error = "") := by
  refine ⟨?_, fun hne => ?_, fun t => ⟨rfl, rfl⟩⟩
  · by_cases hp : s.pin = ADMIN_PIN
    · simp [handleConfirm, hp]
    · simp [handleConfirm, hp, h]
  · simp [handleConfirm, hne, h]

/-- Witness for C10: the exact PIN opens the gate; a truncated PIN and a PIN
with trailing whitespace leave it closed. -/
theorem pinGate_spec_witness :
    (handleConfirm ⟨"743351", "", false, true⟩).isEditing = true ∧
    (handleConfirm ⟨"74335", "", false, true⟩).isEditing = false ∧
    (handleConfirm ⟨"743351 ", "", false, true⟩).isEditing = false :=
  ⟨(pinGate_spec ⟨"743351", "", false, true⟩ rfl).1.mpr rfl,
   ((pinGate_spec ⟨"74335", "", false, true⟩ rfl).2.1 (by decide)).1,
   ((pinGate_spec ⟨"743351 ", "", false, true⟩ rfl).2.1 (by decide)).1⟩

end PharmaFlash
